import Mathlib

/-!
Verification development for the `uclcoin` blockchain core
(`blockchain.py`, class `BlockChain`).

Shallow embedding conventions:
* Python machine-free integers for amounts, fees and indices are `Nat`
  (the specification fixes them as `u64`, hence non-negative); derived
  balances are `Int` because replay can debit below zero.
* The `Transaction` and `Block` entity classes are not part of the given
  source tree; their fields, their structural equality, and the fact that
  `tx_hash` / `current_hash` are opaque digests supplied by a cryptographic
  collaborator are modelled from the specification.  Signature
  verification (`Transaction.verify`) is modelled as an explicit function
  parameter `vf : Transaction → Bool` threaded through every operation
  that calls it.
* Methods that can raise an uncaught Python exception (for example
  `blocks[-1]` / `transactions[-1]` on an empty list, or attribute access
  on `None`) return `Option`, with `none` modelling the uncaught error.
* The four `BlockchainException` subclasses are the constructors of
  `BlockErr`; `pyIndexError` models an `IndexError` escaping
  `validate_block`, which only catches `BlockchainException`.
* Python truthiness of `find_duplicate_transactions` results (an `int`
  block index or `False`) is modelled by `pyTruthy`: the integer `0` is
  falsy in Python, exactly as in the source.
-/

/-- Transaction entity.  Modelled from the spec: `{source, destination,
amount, fee, timestamp, identityHash, signature}` with `amount`, `fee`,
`timestamp : u64`; the identity hash (`tx_hash` in the source) is an
opaque digest supplied by the cryptographic collaborator, carried here as
a plain field. -/
structure Transaction where
  source : String
  destination : String
  amount : Nat
  fee : Nat
  timestamp : Nat
  txHash : String
  signature : String
deriving DecidableEq, Repr

/-- Block entity.  Modelled from the spec: `{index, transactions,
previousHash, timestamp, nonce, currentHash}`; `currentHash` is an opaque
digest field. -/
structure Block where
  index : Nat
  transactions : List Transaction
  previousHash : String
  timestamp : Nat
  nonce : Nat
  currentHash : String
deriving DecidableEq, Repr

/-- Chain state of the `BlockChain` aggregate: the confirmed block list
and the pending pool.  A pending entry is `Option Transaction` because a
Python list cell can hold `None`; `get_minable_block` explicitly tests
`pending_transaction is None`. -/
structure State where
  blocks : List Block
  pending : List (Option Transaction)
deriving DecidableEq, Repr

/-- BlockChain.COINS_PER_BLOCK. -/
def COINS_PER_BLOCK : Nat := 10

/-- BlockChain.MAX_TRANSACTIONS_PER_BLOCK. -/
def MAX_TRANSACTIONS_PER_BLOCK : Nat := 50

/-- BlockChain.MINIMUM_HASH_DIFFICULTY. -/
def MINIMUM_HASH_DIFFICULTY : Nat := 6

/-- BlockChain.calculate_hash_dificulty: ignores its optional index
argument and returns the constant minimum difficulty. -/
def calculate_hash_dificulty (index : Option Nat) : Nat :=
  match index with
  | _ => MINIMUM_HASH_DIFFICULTY

/-- BlockChain.get_reward: flat reward, ignores the block index. -/
def get_reward (index : Nat) : Nat :=
  match index with
  | _ => COINS_PER_BLOCK

/-- Error taxonomy: the four `BlockchainException` subclasses raised by
the validators, plus `pyIndexError` for an uncaught Python `IndexError`
(empty `blocks[-1]` or `transactions[-1]`). -/
inductive BlockErr where
  | genesisBlockMismatch
  | invalidHash
  | chainContinuityError
  | invalidTransactions
  | pyIndexError
deriving DecidableEq, Repr

/-- Address credited by the first genesis transaction. -/
def gAddr1 : String := "032b72046d335b5318a672763338b08b9642225189ab3f0cba777622cfee0fc07b"

/-- Address credited by the second genesis transaction. -/
def gAddr2 : String := "02f846677f65911f140a42af8fe7c1e5cbc7d148c44057ce49ee0cd0a72b21df4f"

/-- Modelled from the spec: the identity digest of the first genesis
transaction, computed by the external cryptographic collaborator inside
the missing `Transaction` constructor; an opaque distinct token here. -/
def genesisTx1Hash : String := "digest-genesis-transaction-1"

/-- Modelled from the spec: the identity digest of the second genesis
transaction. -/
def genesisTx2Hash : String := "digest-genesis-transaction-2"

/-- Modelled from the spec: the block digest of the genesis block,
computed by the external collaborator inside the missing `Block`
constructor. -/
def genesisCurrentHash : String := "digest-genesis-block"

/-- Modelled from the spec: the identity digest the missing `Transaction`
constructor assigns to the reward transaction synthesized by
`get_minable_block`. -/
def minedRewardTxHash : String := "digest-synthesized-reward-transaction"

/-- Modelled from the spec: the block digest the missing `Block`
constructor assigns to the candidate returned by `get_minable_block`;
the spec leaves nonce and current hash for the mining collaborator. -/
def candidateBlockHash : String := "digest-candidate-block"

/-- First genesis transaction: Transaction('0', gAddr1, 10, 0, 0, ''). -/
def genesisTransactionOne : Transaction :=
  { source := "0", destination := gAddr1, amount := 10, fee := 0,
    timestamp := 0, txHash := genesisTx1Hash, signature := "" }

/-- Second genesis transaction: Transaction('0', gAddr2, 10, 0, 0, ''). -/
def genesisTransactionTwo : Transaction :=
  { source := "0", destination := gAddr2, amount := 10, fee := 0,
    timestamp := 0, txHash := genesisTx2Hash, signature := "" }

/-- BlockChain._get_genesis_block: the pinned genesis block
Block(0, [tx1, tx2], '0' * 66, 0, 27118821). -/
def get_genesis_block : Block :=
  { index := 0,
    transactions := [genesisTransactionOne, genesisTransactionTwo],
    previousHash := "000000000000000000000000000000000000000000000000000000000000000000",
    timestamp := 0,
    nonce := 27118821,
    currentHash := genesisCurrentHash }

/-- Fresh chain state produced by the `BlockChain` constructor with no
argument: the genesis block is validated and appended, pending empty. -/
def freshState : State :=
  { blocks := [get_genesis_block], pending := [] }

/-- BlockChain.find_duplicate_transactions: scans the confirmed blocks in
order and returns the index field of the first block containing a
transaction with the given identity hash, or Python `False` (here
`none`) when no block contains it. -/
def find_duplicate_transactions (blocks : List Block) (transaction_hash : String) : Option Nat :=
  match blocks with
  | [] => none
  | b :: rest =>
    if b.transactions.any (fun t => t.txHash = transaction_hash) then some b.index
    else find_duplicate_transactions rest transaction_hash

/-- Python truthiness of the `find_duplicate_transactions` result: the
source returns either a block index (an `int`, falsy exactly when it is
`0`) or `False`; every caller uses the result in an `if`. -/
def pyTruthy (r : Option Nat) : Bool :=
  match r with
  | some i => i != 0
  | none => false

/-- Body of the balance replay loop of `get_balance` and
`get_balance_pending`: debit `amount + fee` when the transaction source
is the queried address, then credit `amount` when the destination is. -/
def txApply (address : String) (bal : Int) (t : Transaction) : Int :=
  let b1 := if t.source = address then bal - ((t.amount : Int) + (t.fee : Int)) else bal
  if t.destination = address then b1 + (t.amount : Int) else b1

/-- BlockChain.get_balance: replays every confirmed transaction in chain
order starting from 0. -/
def get_balance (s : State) (address : String) : Int :=
  s.blocks.foldl (fun bal blk => blk.transactions.foldl (txApply address) bal) 0

/-- BlockChain.get_balance_pending: starts from `get_balance` and applies
the same rule to every pending entry in order.  Attribute access on a
`None` cell raises in Python; `none` models that uncaught error. -/
def get_balance_pending (s : State) (address : String) : Option Int :=
  s.pending.foldl
    (fun acc e =>
      match acc, e with
      | none, _ => none
      | some _, none => none
      | some bal, some t => some (txApply address bal t))
    (some (get_balance s address))

/-- Modelled from the spec: `Transaction.__eq__` is not in the source
tree; the spec defines duplicate detection in the pending pool by
identity hash (the hash being a deterministic digest of all the other
fields), so the membership test `transaction in self.pending_transactions`
compares identity hashes.  A `None` cell never equals a transaction. -/
def pendingContains (pending : List (Option Transaction)) (t : Transaction) : Bool :=
  pending.any (fun e =>
    match e with
    | some p => p.txHash = t.txHash
    | none => false)

/-- BlockChain.validate_transaction: reject pending duplicates, confirmed
replays (by Python truthiness of the found block index), failed
signature verification, and `amount + fee` exceeding the confirmed
balance of the source. -/
def validate_transaction (vf : Transaction → Bool) (s : State) (t : Transaction) : Bool :=
  if pendingContains s.pending t then false
  else if pyTruthy (find_duplicate_transactions s.blocks t.txHash) then false
  else if !(vf t) then false
  else if get_balance s t.source < ((t.amount : Int) + (t.fee : Int)) then false
  else true

/-- BlockChain.push_pending_transaction: append to pending on successful
validation, report acceptance. -/
def push_pending_transaction (vf : Transaction → Bool) (s : State) (t : Transaction) :
    Bool × State :=
  if validate_transaction vf s t then
    (true, { s with pending := s.pending ++ [some t] })
  else (false, s)

/-- BlockChain.add_transaction: alias for push_pending_transaction. -/
def add_transaction (vf : Transaction → Bool) (s : State) (t : Transaction) : Bool × State :=
  push_pending_transaction vf s t

/-- BlockChain._check_genesis_block: raise GenesisBlockMismatch unless
the candidate equals the pinned genesis block (structural equality over
the whole entity, modelled from the spec since `Block.__eq__` is not in
the source tree). -/
def check_genesis_block (b : Block) : Except BlockErr Unit :=
  if b ≠ get_genesis_block then Except.error BlockErr.genesisBlockMismatch
  else Except.ok ()

/-- BlockChain._check_hash_and_hash_pattern: the count of zero characters
among the first `calculate_hash_dificulty()` characters of the block
digest must reach the difficulty. -/
def check_hash_and_hash_pattern (b : Block) : Except BlockErr Unit :=
  let hash_difficulty := calculate_hash_dificulty none
  if (b.currentHash.data.take hash_difficulty).count '0' < hash_difficulty then
    Except.error BlockErr.invalidHash
  else Except.ok ()

/-- BlockChain._check_index_and_previous_hash: the latest block (Python
`blocks[-1]`, IndexError on an empty chain) must have index
`block.index - 1` and digest equal to `block.previousHash`. -/
def check_index_and_previous_hash (s : State) (b : Block) : Except BlockErr Unit :=
  match s.blocks.getLast? with
  | none => Except.error BlockErr.pyIndexError
  | some latest_block =>
    if latest_block.index ≠ b.index - 1 then Except.error BlockErr.chainContinuityError
    else if latest_block.currentHash ≠ b.previousHash then
      Except.error BlockErr.chainContinuityError
    else Except.ok ()

/-- Total `(amount + fee)` debited by the non-reward transactions of a
block from one source: the entry the Python `payers` dict accumulates
for that source key. -/
def payersTotal (pre : List Transaction) (src : String) : Nat :=
  ((pre.filter (fun t => t.source = src)).map (fun t => t.amount + t.fee)).sum

/-- BlockChain._check_transactions_and_block_reward.  The source loops
over `transactions[:-1]` raising InvalidTransactions on a truthy
duplicate lookup or a failed signature while accumulating the `payers`
dict and the fee total, then raises if any `payers` entry exceeds the
confirmed balance of its key, then requires the last transaction
(`transactions[-1]`, IndexError when the list is empty) to pay
exactly `get_reward(index)` plus the accumulated fees from source "0".
The `payers` dict is represented by `payersTotal`; iterating its keys is
represented by checking every non-reward transaction source. -/
def check_transactions_and_block_reward (vf : Transaction → Bool) (s : State) (b : Block) :
    Except BlockErr Unit :=
  match b.transactions.getLast? with
  | none => Except.error BlockErr.pyIndexError
  | some reward_transaction =>
    let pre := b.transactions.dropLast
    let reward_amount := get_reward b.index + (pre.map Transaction.fee).sum
    if pre.any (fun t => pyTruthy (find_duplicate_transactions s.blocks t.txHash)) then
      Except.error BlockErr.invalidTransactions
    else if pre.any (fun t => !(vf t)) then
      Except.error BlockErr.invalidTransactions
    else if pre.any (fun t => get_balance s t.source < (payersTotal pre t.source : Int)) then
      Except.error BlockErr.invalidTransactions
    else if reward_transaction.amount ≠ reward_amount ∨ reward_transaction.source ≠ "0" then
      Except.error BlockErr.invalidTransactions
    else Except.ok ()

/-- Body of BlockChain.validate_block before the `except` clause: the
genesis branch returns immediately; otherwise the three checks run in
source order, propagating the first raised condition. -/
def validateBlockE (vf : Transaction → Bool) (s : State) (b : Block) : Except BlockErr Unit :=
  if b.index = 0 then check_genesis_block b
  else
    match check_hash_and_hash_pattern b with
    | Except.error e => Except.error e
    | Except.ok _ =>
      match check_index_and_previous_hash s b with
      | Except.error e => Except.error e
      | Except.ok _ => check_transactions_and_block_reward vf s b

/-- BlockChain.validate_block: `some true` on success, `some false` when
a BlockchainException is caught and logged, `none` when a Python
IndexError escapes (only BlockchainException is caught). -/
def validate_block (vf : Transaction → Bool) (s : State) (b : Block) : Option Bool :=
  match validateBlockE vf s b with
  | Except.ok _ => some true
  | Except.error BlockErr.pyIndexError => none
  | Except.error _ => some false

/-- BlockChain.add_block: append on successful validation; `none` models
an exception escaping `validate_block`. -/
def add_block (vf : Transaction → Bool) (s : State) (b : Block) : Option (Bool × State) :=
  match validate_block vf s b with
  | none => none
  | some true => some (true, { s with blocks := s.blocks ++ [b] })
  | some false => some (false, s)

/-- Selection loop of BlockChain.get_minable_block: walk the pending pool
in order; a `None` cell breaks the loop; an identity hash already chosen,
a truthy confirmed-duplicate lookup, or a failed signature verification
is skipped with `continue`; an accepted entry is appended and its fee
accumulated, and the loop breaks once the chosen list reaches
MAX_TRANSACTIONS_PER_BLOCK. -/
def selectLoop (vf : Transaction → Bool) (blocks : List Block)
    (pending : List (Option Transaction)) (chosen : List Transaction) (fees : Nat) :
    List Transaction × Nat :=
  match pending with
  | [] => (chosen, fees)
  | none :: _ => (chosen, fees)
  | some pt :: rest =>
    if chosen.any (fun t => t.txHash = pt.txHash) then
      selectLoop vf blocks rest chosen fees
    else if pyTruthy (find_duplicate_transactions blocks pt.txHash) then
      selectLoop vf blocks rest chosen fees
    else if !(vf pt) then
      selectLoop vf blocks rest chosen fees
    else
      let chosen1 := chosen ++ [pt]
      if MAX_TRANSACTIONS_PER_BLOCK ≤ chosen1.length then (chosen1, fees + pt.fee)
      else selectLoop vf blocks rest chosen1 (fees + pt.fee)

/-- BlockChain.get_minable_block: read the latest block (IndexError on an
empty chain, modelled by `none`), run the selection loop, synthesize the
reward transaction Transaction("0", reward_address, reward + fees, 0,
timestamp, "0"), append it last, and build the candidate block.  The
wall-clock `time.time()` value is an explicit argument; the method never
writes the chain state, which is returned unchanged alongside the
candidate. -/
def get_minable_block (vf : Transaction → Bool) (s : State) (reward_address : String)
    (timestamp : Nat) : Option (Block × State) :=
  match s.blocks.getLast? with
  | none => none
  | some latest_block =>
    let new_block_id := latest_block.index + 1
    let previous_hash := latest_block.currentHash
    let sel := selectLoop vf s.blocks s.pending [] 0
    let reward_transaction : Transaction :=
      { source := "0", destination := reward_address,
        amount := get_reward new_block_id + sel.2, fee := 0,
        timestamp := timestamp, txHash := minedRewardTxHash, signature := "0" }
    some ({ index := new_block_id,
            transactions := sel.1 ++ [reward_transaction],
            previousHash := previous_hash,
            timestamp := timestamp,
            nonce := 0,
            currentHash := candidateBlockHash }, s)

/-- Chain states reachable from the fresh chain by successful
`add_block` operations. -/
inductive Reachable (vf : Transaction → Bool) : State → Prop where
  | init : Reachable vf freshState
  | step (s : State) (b : Block) (s' : State) :
      Reachable vf s → add_block vf s b = some (true, s') → Reachable vf s'

/-- Specification-side balance step, written from the words of the spec:
sum `-(amount + fee)` for each transaction whose source is the address,
plus `+amount` for each whose destination is the address. -/
def txDelta (address : String) (t : Transaction) : Int :=
  (if t.destination = address then (t.amount : Int) else 0)
    - (if t.source = address then (t.amount : Int) + (t.fee : Int) else 0)

/-- Specification-side acceptance test for one pending entry of the
candidate-selection scan, as amended: the identity hash was not already
chosen in this pass, the hash is not confirmed in a block whose recorded
first-occurrence index is nonzero, and the signature verifies. -/
def specAccept (vf : Transaction → Bool) (blocks : List Block)
    (chosen : List Transaction) (t : Transaction) : Bool :=
  chosen.all (fun c => c.txHash ≠ t.txHash) &&
  (match find_duplicate_transactions blocks t.txHash with
   | some i => i = 0
   | none => true) &&
  vf t

/-- Specification-side candidate-selection scan, as amended: walk the
pool in order with a remaining-capacity counter, stop at the first hole,
at capacity exhaustion, or at the end of the pool, and otherwise accept
or skip each entry by `specAccept`. -/
def specScan (vf : Transaction → Bool) (blocks : List Block) :
    List (Option Transaction) → List Transaction → Nat → List Transaction
  | [], chosen, _ => chosen
  | none :: _, chosen, _ => chosen
  | some t :: rest, chosen, cap =>
    if specAccept vf blocks chosen t then
      if cap - 1 = 0 then chosen ++ [t]
      else specScan vf blocks rest (chosen ++ [t]) (cap - 1)
    else specScan vf blocks rest chosen cap

/-- Candidate-selection scan exactly as the original claim states it:
holes are skipped and the scan continues past them, any entry whose
identity hash is confirmed anywhere on chain is skipped, and the scan
stops only at pool exhaustion or at the acceptance cap. -/
def origScan (vf : Transaction → Bool) (blocks : List Block) :
    List (Option Transaction) → List Transaction → Nat → List Transaction
  | [], chosen, _ => chosen
  | none :: rest, chosen, cap => origScan vf blocks rest chosen cap
  | some t :: rest, chosen, cap =>
    if (chosen.all (fun c => c.txHash ≠ t.txHash)
        && !(find_duplicate_transactions blocks t.txHash).isSome
        && vf t) then
      if cap - 1 = 0 then chosen ++ [t]
      else origScan vf blocks rest (chosen ++ [t]) (cap - 1)
    else origScan vf blocks rest chosen cap

/-- Signature oracle accepting every transaction, used for concrete
witness states. -/
def vfAll : Transaction → Bool := fun _ => true

/-- Concrete pending submission whose identity hash is already confirmed
inside the genesis block. -/
def replayPendingTx : Transaction :=
  { source := gAddr1, destination := gAddr2, amount := 1, fee := 0,
    timestamp := 5, txHash := genesisTx1Hash, signature := "sig" }

/-- Concrete non-reward block transaction whose identity hash is already
confirmed inside the genesis block. -/
def replayBlockTx : Transaction :=
  { source := gAddr1, destination := gAddr2, amount := 5, fee := 1,
    timestamp := 9, txHash := genesisTx1Hash, signature := "sig" }

/-- Reward transaction of the concrete replay block: base reward 10 plus
the fee 1 of the other transaction. -/
def replayBlockReward : Transaction :=
  { source := "0", destination := "miner", amount := 11, fee := 0,
    timestamp := 9, txHash := "digest-replay-reward", signature := "0" }

/-- Concrete candidate block at index 1 on the fresh chain whose only
non-reward transaction replays a genesis identity hash; its digest
satisfies the difficulty-6 pattern. -/
def replayBlock : Block :=
  { index := 1, transactions := [replayBlockTx, replayBlockReward],
    previousHash := genesisCurrentHash, timestamp := 9, nonce := 0,
    currentHash := "000000abc" }

/-- Concrete well-formed pending transaction used behind a hole in the
pool. -/
def tGood : Transaction :=
  { source := gAddr1, destination := gAddr2, amount := 2, fee := 1,
    timestamp := 3, txHash := "digest-good", signature := "sig" }

/-- Fresh chain whose pending pool holds a hole followed by a perfectly
valid transaction. -/
def holeState : State :=
  { blocks := [get_genesis_block], pending := [none, some tGood] }

theorem txApply_eq (address : String) (bal : Int) (t : Transaction) :
    txApply address bal t = bal + txDelta address t := by
  unfold txApply txDelta
  by_cases hs : t.source = address <;> by_cases hd : t.destination = address <;>
    simp [hs, hd] <;> ring

theorem foldl_txApply (address : String) (l : List Transaction) (bal : Int) :
    l.foldl (txApply address) bal = bal + (l.map (txDelta address)).sum := by
  induction l generalizing bal with
  | nil => simp
  | cons t rest ih =>
    simp only [List.foldl_cons, List.map_cons, List.sum_cons, txApply_eq, ih, add_assoc]

theorem foldl_blocks_txApply (address : String) (blocks : List Block) (init : Int) :
    blocks.foldl (fun bal blk => blk.transactions.foldl (txApply address) bal) init
      = init + (blocks.map (fun blk => (blk.transactions.map (txDelta address)).sum)).sum := by
  induction blocks generalizing init with
  | nil => simp
  | cons b rest ih =>
    simp only [List.foldl_cons]
    rw [ih, foldl_txApply]
    simp [add_assoc]

theorem get_balance_eq_sum (s : State) (address : String) :
    get_balance s address
      = (s.blocks.map (fun blk => (blk.transactions.map (txDelta address)).sum)).sum := by
  unfold get_balance
  simpa using foldl_blocks_txApply address s.blocks 0

theorem get_balance_append (blocks : List Block) (p p' : List (Option Transaction))
    (b : Block) (address : String) :
    get_balance ⟨blocks ++ [b], p⟩ address
      = get_balance ⟨blocks, p'⟩ address + (b.transactions.map (txDelta address)).sum := by
  simp [get_balance_eq_sum]

theorem txDelta_nonneg (address : String) (t : Transaction) (h : t.source ≠ address) :
    0 ≤ txDelta address t := by
  unfold txDelta
  rw [if_neg h]
  split_ifs <;> omega

theorem txDelta_ge (address : String) (t : Transaction) :
    -(if t.source = address then ((t.amount : Int) + (t.fee : Int)) else 0)
      ≤ txDelta address t := by
  unfold txDelta
  split_ifs <;> omega

theorem payersTotal_cons (t : Transaction) (pre : List Transaction) (src : String) :
    payersTotal (t :: pre) src
      = (if t.source = src then t.amount + t.fee else 0) + payersTotal pre src := by
  unfold payersTotal
  by_cases h : t.source = src <;> simp [h, List.filter_cons]

theorem sum_txDelta_ge (address : String) (pre : List Transaction) :
    -(payersTotal pre address : Int) ≤ (pre.map (txDelta address)).sum := by
  induction pre with
  | nil => simp [payersTotal]
  | cons t rest ih =>
    have h1 := txDelta_ge address t
    rw [payersTotal_cons]
    simp only [List.map_cons, List.sum_cons]
    push_cast
    split_ifs at h1 ⊢ <;> linarith

theorem payersTotal_eq_zero (pre : List Transaction) (address : String)
    (h : ∀ t ∈ pre, t.source ≠ address) : payersTotal pre address = 0 := by
  induction pre with
  | nil => simp [payersTotal]
  | cons t rest ih =>
    rw [payersTotal_cons, if_neg (h t (by simp))]
    simpa using ih (fun x hx => h x (by simp [hx]))

theorem selectLoop_length (vf : Transaction → Bool) (blocks : List Block)
    (pending : List (Option Transaction)) (chosen : List Transaction) (fees : Nat)
    (h : chosen.length < MAX_TRANSACTIONS_PER_BLOCK) :
    (selectLoop vf blocks pending chosen fees).1.length ≤ MAX_TRANSACTIONS_PER_BLOCK := by
  induction pending generalizing chosen fees with
  | nil => simpa [selectLoop] using Nat.le_of_lt h
  | cons e rest ih =>
    match e with
    | none => simpa [selectLoop] using Nat.le_of_lt h
    | some pt =>
      rw [selectLoop]
      split_ifs with h1 h2 h3
      · exact ih chosen fees h
      · exact ih chosen fees h
      · exact ih chosen fees h
      · by_cases h4 : MAX_TRANSACTIONS_PER_BLOCK ≤ (chosen ++ [pt]).length
        · rw [if_pos h4]
          simp at h4 ⊢
          omega
        · rw [if_neg h4]
          exact ih (chosen ++ [pt]) (fees + pt.fee) (by simp at h4 ⊢; omega)

theorem selectLoop_fees (vf : Transaction → Bool) (blocks : List Block)
    (pending : List (Option Transaction)) (chosen : List Transaction) (fees : Nat) :
    (selectLoop vf blocks pending chosen fees).2
        + ((chosen.map Transaction.fee).sum)
      = fees + (((selectLoop vf blocks pending chosen fees).1.map Transaction.fee).sum) := by
  induction pending generalizing chosen fees with
  | nil => simp [selectLoop]
  | cons e rest ih =>
    match e with
    | none => simp [selectLoop]
    | some pt =>
      rw [selectLoop]
      split_ifs with h1 h2 h3
      · exact ih chosen fees
      · exact ih chosen fees
      · exact ih chosen fees
      · by_cases h4 : MAX_TRANSACTIONS_PER_BLOCK ≤ (chosen ++ [pt]).length
        · rw [if_pos h4]
          simp
          omega
        · rw [if_neg h4]
          have := ih (chosen ++ [pt]) (fees + pt.fee)
          simp at this ⊢
          omega

theorem specAccept_false_of_dup (vf : Transaction → Bool) (blocks : List Block)
    (chosen : List Transaction) (pt : Transaction)
    (h1 : chosen.any (fun t => t.txHash = pt.txHash) = true) :
    specAccept vf blocks chosen pt = false := by
  simp only [List.any_eq_true, decide_eq_true_eq] at h1
  obtain ⟨c, hc, hch⟩ := h1
  unfold specAccept
  cases hall : chosen.all (fun c => c.txHash ≠ pt.txHash) with
  | false => simp [hall]
  | true =>
    exfalso
    rw [List.all_eq_true] at hall
    have := hall c hc
    simp [hch] at this

theorem specAccept_false_of_truthy (vf : Transaction → Bool) (blocks : List Block)
    (chosen : List Transaction) (pt : Transaction)
    (h2 : pyTruthy (find_duplicate_transactions blocks pt.txHash) = true) :
    specAccept vf blocks chosen pt = false := by
  unfold specAccept
  cases hf : find_duplicate_transactions blocks pt.txHash with
  | none => rw [hf] at h2; simp [pyTruthy] at h2
  | some i =>
    rw [hf] at h2
    simp [pyTruthy] at h2
    simp [hf, h2]

theorem specAccept_true (vf : Transaction → Bool) (blocks : List Block)
    (chosen : List Transaction) (pt : Transaction)
    (h1 : ¬ chosen.any (fun t => t.txHash = pt.txHash) = true)
    (h2 : ¬ pyTruthy (find_duplicate_transactions blocks pt.txHash) = true)
    (h3 : vf pt = true) :
    specAccept vf blocks chosen pt = true := by
  unfold specAccept
  simp only [Bool.and_eq_true]
  refine ⟨⟨?_, ?_⟩, h3⟩
  · rw [List.all_eq_true]
    intro c hc
    by_contra hcontra
    exact h1 (by
      rw [List.any_eq_true]
      exact ⟨c, hc, by simpa using hcontra⟩)
  · cases hf : find_duplicate_transactions blocks pt.txHash with
    | none => simp
    | some i =>
      rw [hf] at h2
      simp [pyTruthy] at h2
      simp [h2]

theorem selectLoop_eq_specScan (vf : Transaction → Bool) (blocks : List Block)
    (pending : List (Option Transaction)) (chosen : List Transaction) (fees cap : Nat)
    (hcap : chosen.length + cap = MAX_TRANSACTIONS_PER_BLOCK) (hpos : 0 < cap) :
    (selectLoop vf blocks pending chosen fees).1 = specScan vf blocks pending chosen cap := by
  induction pending generalizing chosen fees cap with
  | nil => simp [selectLoop, specScan]
  | cons e rest ih =>
    match e with
    | none => simp [selectLoop, specScan]
    | some pt =>
      rw [selectLoop, specScan]
      by_cases h1 : chosen.any (fun t => t.txHash = pt.txHash) = true
      · rw [if_pos h1,
          if_neg (show ¬ specAccept vf blocks chosen pt = true by
            simp [specAccept_false_of_dup vf blocks chosen pt h1])]
        exact ih chosen fees cap hcap hpos
      · rw [if_neg h1]
        by_cases h2 : pyTruthy (find_duplicate_transactions blocks pt.txHash) = true
        · rw [if_pos h2,
            if_neg (show ¬ specAccept vf blocks chosen pt = true by
              simp [specAccept_false_of_truthy vf blocks chosen pt h2])]
          exact ih chosen fees cap hcap hpos
        · rw [if_neg h2]
          by_cases h3 : vf pt = true
          · rw [if_neg (show ¬ (!(vf pt)) = true by simp [h3]),
              if_pos (show specAccept vf blocks chosen pt = true from
                specAccept_true vf blocks chosen pt h1 h2 h3)]
            by_cases hstop : MAX_TRANSACTIONS_PER_BLOCK ≤ (chosen ++ [pt]).length
            · rw [if_pos hstop, if_pos (show cap - 1 = 0 by
                simp [List.length_append] at hstop
                omega)]
            · rw [if_neg hstop, if_neg (show ¬ cap - 1 = 0 by
                simp [List.length_append] at hstop
                omega)]
              exact ih (chosen ++ [pt]) (fees + pt.fee) (cap - 1) (by simp; omega)
                (by simp [List.length_append] at hstop; omega)
          · have h3f : vf pt = false := Bool.eq_false_iff.mpr h3
            rw [if_pos (show (!(vf pt)) = true by simp [h3f]),
              if_neg (show ¬ specAccept vf blocks chosen pt = true by
                unfold specAccept
                simp [h3f])]
            exact ih chosen fees cap hcap hpos

theorem count_zero_take_iff (l : List Char) (d : Nat) :
    d ≤ (l.take d).count '0' ↔ l.take d = List.replicate d '0' := by
  constructor
  · intro h
    have hlen : (l.take d).length ≤ d := by
      simp [List.length_take]
    have hc : (l.take d).count '0' ≤ (l.take d).length := List.count_le_length _ _
    have hld : (l.take d).length = d := le_antisymm hlen (le_trans h hc)
    have hcl : (l.take d).count '0' = (l.take d).length :=
      le_antisymm hc (by rw [hld]; exact h)
    rw [List.eq_replicate_iff]
    refine ⟨hld, ?_⟩
    intro b hb
    exact (List.count_eq_length.mp hcl b hb).symm
  · intro h
    rw [h]
    simp

theorem check_index_err (s : State) (b : Block) (e : BlockErr)
    (h : check_index_and_previous_hash s b = Except.error e) :
    e = BlockErr.chainContinuityError ∨ e = BlockErr.pyIndexError := by
  unfold check_index_and_previous_hash at h
  split at h
  · right
    cases h
    rfl
  · split_ifs at h <;> cases h
    · left; rfl
    · left; rfl

theorem check_txs_err (vf : Transaction → Bool) (s : State) (b : Block) (e : BlockErr)
    (h : check_transactions_and_block_reward vf s b = Except.error e) :
    e = BlockErr.invalidTransactions ∨ e = BlockErr.pyIndexError := by
  simp only [check_transactions_and_block_reward] at h
  split at h
  · right; cases h; rfl
  · split_ifs at h <;> cases h
    · left; rfl
    · left; rfl
    · left; rfl
    · left; rfl

theorem check_hash_cases (b : Block) :
    check_hash_and_hash_pattern b = Except.ok ()
      ∨ check_hash_and_hash_pattern b = Except.error BlockErr.invalidHash := by
  simp only [check_hash_and_hash_pattern]
  split_ifs
  · right; rfl
  · left; rfl

theorem validateBlockE_genesis_branch (vf : Transaction → Bool) (s : State) (b : Block)
    (h0 : b.index = 0) : validateBlockE vf s b = check_genesis_block b := by
  unfold validateBlockE
  rw [if_pos h0]

theorem check_genesis_ok_iff (b : Block) :
    check_genesis_block b = Except.ok () ↔ b = get_genesis_block := by
  unfold check_genesis_block
  split_ifs with h
  · simp [h]
  · simp [not_not.mp h]

theorem validateBlockE_ok_parts (vf : Transaction → Bool) (s : State) (b : Block)
    (h : validateBlockE vf s b = Except.ok ()) (h0 : b.index ≠ 0) :
    check_hash_and_hash_pattern b = Except.ok ()
      ∧ check_index_and_previous_hash s b = Except.ok ()
      ∧ check_transactions_and_block_reward vf s b = Except.ok () := by
  unfold validateBlockE at h
  rw [if_neg h0] at h
  split at h
  · exact (Except.noConfusion h)
  · rename_i u heq
    split at h
    · exact (Except.noConfusion h)
    · rename_i u2 heq2
      refine ⟨?_, ?_, h⟩
      · cases u
        exact heq
      · cases u2
        exact heq2

theorem validateBlockE_invalidHash_iff (vf : Transaction → Bool) (s : State) (b : Block)
    (h0 : b.index ≠ 0) :
    validateBlockE vf s b = Except.error BlockErr.invalidHash ↔
      check_hash_and_hash_pattern b = Except.error BlockErr.invalidHash := by
  unfold validateBlockE
  rw [if_neg h0]
  constructor
  · intro h
    split at h
    · rename_i e heq
      cases h
      exact heq
    · split at h
      · rename_i e heq2
        cases h
        rcases check_index_err s b _ heq2 with hc | hc <;> cases hc
      · rcases check_txs_err vf s b _ h with hc | hc <;> cases hc
  · intro h
    rw [h]

theorem check_hash_error_iff (b : Block) :
    check_hash_and_hash_pattern b = Except.error BlockErr.invalidHash ↔
      (b.currentHash.data.take (calculate_hash_dificulty none)).count '0'
        < calculate_hash_dificulty none := by
  simp only [check_hash_and_hash_pattern]
  split_ifs with h
  · simp [h]
  · simp [h]

/-- C3: for a non-genesis candidate block, validation rejects with
InvalidHash exactly when the first `calculate_hash_dificulty()`
characters of the block digest are not all the zero character, and the
implemented counting check is, for every difficulty and every digest,
equivalent to requiring all leading characters to be zero. -/
theorem C3_hash_pattern (vf : Transaction → Bool) (s : State) (b : Block)
    (h0 : b.index ≠ 0) :
    (validateBlockE vf s b = Except.error BlockErr.invalidHash ↔
      ¬ b.currentHash.data.take (calculate_hash_dificulty none)
          = List.replicate (calculate_hash_dificulty none) '0') ∧
    (∀ (d : Nat) (hash : List Char),
      (¬ (hash.take d).count '0' < d) ↔ hash.take d = List.replicate d '0') := by
  constructor
  · rw [validateBlockE_invalidHash_iff vf s b h0, check_hash_error_iff b,
      ← count_zero_take_iff b.currentHash.data (calculate_hash_dificulty none), Nat.not_le]
  · intro d hash
    rw [Nat.not_lt]
    exact count_zero_take_iff hash d

/-- Concrete non-genesis block whose digest does not start with six zero
characters. -/
def badHashBlock : Block :=
  { index := 1, transactions := [], previousHash := "x", timestamp := 0,
    nonce := 0, currentHash := "abc" }

/-- Witness for C3_hash_pattern: the concrete bad-digest block is
rejected with InvalidHash. -/
theorem C3_hash_pattern_witness :
    validateBlockE vfAll freshState badHashBlock = Except.error BlockErr.invalidHash :=
  (C3_hash_pattern vfAll freshState badHashBlock (by decide)).1.mpr (by decide)

theorem check_index_ok_iff (s : State) (b : Block) (latest : Block)
    (hlast : s.blocks.getLast? = some latest) (h0 : b.index ≠ 0) :
    check_index_and_previous_hash s b = Except.ok () ↔
      (b.index = latest.index + 1 ∧ b.previousHash = latest.currentHash) := by
  simp only [check_index_and_previous_hash, hlast]
  split_ifs with h1 h2 <;> constructor <;> intro h
  · exact absurd h (by simp)
  · exfalso
    apply h1
    omega
  · exact absurd h (by simp)
  · exact absurd h.2.symm h2
  · exact ⟨by omega, (not_ne_iff.mp h2).symm⟩
  · rfl

theorem check_index_cases (s : State) (b : Block) (latest : Block)
    (hlast : s.blocks.getLast? = some latest) :
    check_index_and_previous_hash s b = Except.ok ()
      ∨ check_index_and_previous_hash s b = Except.error BlockErr.chainContinuityError := by
  simp only [check_index_and_previous_hash, hlast]
  split_ifs <;> simp

/-- C4: for a non-genesis candidate that passes the proof-of-work check,
validation fails with ChainContinuityError exactly when the index is not
the successor of the latest block index or the previous-hash link does
not match the latest digest; and the proof-of-work check runs first, so
a failing digest yields InvalidHash regardless of the later checks. -/
theorem C4_continuity (vf : Transaction → Bool) (s : State) (b : Block) (latest : Block)
    (hlast : s.blocks.getLast? = some latest) (h0 : b.index ≠ 0)
    (hpow : check_hash_and_hash_pattern b = Except.ok ()) :
    (validateBlockE vf s b = Except.error BlockErr.chainContinuityError ↔
      ¬ (b.index = latest.index + 1 ∧ b.previousHash = latest.currentHash)) ∧
    (∀ (s2 : State) (b2 : Block), b2.index ≠ 0 →
      check_hash_and_hash_pattern b2 = Except.error BlockErr.invalidHash →
      validateBlockE vf s2 b2 = Except.error BlockErr.invalidHash) := by
  constructor
  · constructor
    · intro h
      intro hcont
      have hidx : check_index_and_previous_hash s b = Except.ok () :=
        (check_index_ok_iff s b latest hlast h0).mpr hcont
      unfold validateBlockE at h
      rw [if_neg h0] at h
      simp only [hpow, hidx] at h
      rcases check_txs_err vf s b _ h with hc | hc <;> cases hc
    · intro hcont
      have hidx : check_index_and_previous_hash s b
          = Except.error BlockErr.chainContinuityError := by
        rcases check_index_cases s b latest hlast with hc | hc
        · exact absurd ((check_index_ok_iff s b latest hlast h0).mp hc) hcont
        · exact hc
      unfold validateBlockE
      rw [if_neg h0]
      simp only [hpow, hidx]
  · intro s2 b2 h02 hbad
    exact (validateBlockE_invalidHash_iff vf s2 b2 h02).mpr hbad

/-- Concrete candidate with a valid proof-of-work digest but a broken
continuity link on the fresh chain. -/
def contBreakBlock : Block :=
  { index := 2, transactions := [], previousHash := "p", timestamp := 0,
    nonce := 0, currentHash := "000000" }

/-- Witness for C4_continuity: the concrete continuity-breaking block is
rejected with ChainContinuityError. -/
theorem C4_continuity_witness :
    validateBlockE vfAll freshState contBreakBlock
      = Except.error BlockErr.chainContinuityError :=
  (C4_continuity vfAll freshState contBreakBlock get_genesis_block (by rfl) (by decide)
    (by rfl)).1.mpr (by decide)

/-- C5: an index-0 candidate is accepted exactly when it is structurally
identical to the pinned genesis block, any other index-0 candidate fails
with the genesis mismatch condition, and adding the exact pinned genesis
block to the fresh chain succeeds. -/
theorem C5_genesis_pinned (vf : Transaction → Bool) (s : State) (b : Block)
    (h0 : b.index = 0) :
    (validate_block vf s b = some true ↔ b = get_genesis_block) ∧
    (b ≠ get_genesis_block →
      validateBlockE vf s b = Except.error BlockErr.genesisBlockMismatch) ∧
    add_block vf freshState get_genesis_block
      = some (true, { blocks := [get_genesis_block, get_genesis_block], pending := [] }) := by
  refine ⟨?_, ?_, ?_⟩
  · unfold validate_block
    rw [validateBlockE_genesis_branch vf s b h0]
    unfold check_genesis_block
    split_ifs with h
    · simp [h]
    · simp [not_not.mp h]
  · intro hne
    rw [validateBlockE_genesis_branch vf s b h0]
    unfold check_genesis_block
    rw [if_pos hne]
  · rfl

/-- Witness for C5_genesis_pinned: the pinned genesis block itself
validates on the fresh chain. -/
theorem C5_genesis_pinned_witness :
    validate_block vfAll freshState get_genesis_block = some true :=
  (C5_genesis_pinned vfAll freshState get_genesis_block rfl).1.mpr rfl

/-- C10: the genesis branch accepts the pinned genesis block in every
chain state without consulting the chain, so add_block appends a second
genesis copy to any non-empty chain, creating a position i > 0 whose
stored block index differs from i. -/
theorem C10_genesis_readdition (vf : Transaction → Bool) (s : State) :
    validate_block vf s get_genesis_block = some true ∧
    add_block vf s get_genesis_block
      = some (true, { blocks := s.blocks ++ [get_genesis_block], pending := s.pending }) ∧
    (s.blocks ≠ [] →
      0 < s.blocks.length ∧
      (s.blocks ++ [get_genesis_block])[s.blocks.length]? = some get_genesis_block ∧
      get_genesis_block.index ≠ s.blocks.length) := by
  have hv : validate_block vf s get_genesis_block = some true := by
    unfold validate_block
    rw [validateBlockE_genesis_branch vf s _ rfl]
    unfold check_genesis_block
    rw [if_neg (by simp)]
  refine ⟨hv, ?_, ?_⟩
  · unfold add_block
    rw [hv]
  · intro hne
    refine ⟨List.length_pos.mpr hne, ?_, ?_⟩
    · rw [List.getElem?_append_right (le_refl _)]
      simp
    · exact Nat.ne_of_lt (List.length_pos.mpr hne)

/-- Witness for C10_genesis_readdition: on the fresh chain the appended
copy sits at position 1 with stored index 0. -/
theorem C10_genesis_readdition_witness :
    (freshState.blocks ++ [get_genesis_block])[freshState.blocks.length]?
        = some get_genesis_block ∧
    get_genesis_block.index ≠ freshState.blocks.length :=
  ⟨((C10_genesis_readdition vfAll freshState).2.2 (by decide)).2.1,
   ((C10_genesis_readdition vfAll freshState).2.2 (by decide)).2.2⟩

theorem foldl_addDelta (a : String) (l : List Transaction) (init : Int) :
    l.foldl (fun bal t => bal + txDelta a t) init = init + (l.map (txDelta a)).sum := by
  induction l generalizing init with
  | nil => simp
  | cons t rest ih =>
    simp only [List.foldl_cons, List.map_cons, List.sum_cons, ih, add_assoc]

theorem foldl_txApply_eq_addDelta (a : String) (l : List Transaction) (init : Int) :
    l.foldl (txApply a) init = l.foldl (fun bal t => bal + txDelta a t) init := by
  rw [foldl_txApply, foldl_addDelta]

/-- C6: get_balance is the single left fold of the spec-side debit/credit
rule over all confirmed transactions in chain order; get_balance_pending
continues that fold over the pending pool in order; and on the fresh
chain the genesis-credited addresses hold 10 while every other address
apart from the reward sentinel holds 0. -/
theorem C6_balance_replay :
    (∀ (s : State) (a : String),
      get_balance s a
        = (s.blocks.map Block.transactions).flatten.foldl
            (fun bal t => bal + txDelta a t) 0) ∧
    (∀ (blocks : List Block) (ts : List Transaction) (a : String),
      get_balance_pending { blocks := blocks, pending := ts.map Option.some } a
        = some (ts.foldl (fun bal t => bal + txDelta a t)
            (get_balance { blocks := blocks, pending := ts.map Option.some } a))) ∧
    get_balance freshState gAddr1 = 10 ∧
    get_balance freshState gAddr2 = 10 ∧
    (∀ a : String, a ≠ "0" → a ≠ gAddr1 → a ≠ gAddr2 → get_balance freshState a = 0) := by
  have hflat : ∀ (s : State) (a : String),
      get_balance s a
        = (s.blocks.map Block.transactions).flatten.foldl
            (fun bal t => bal + txDelta a t) 0 := by
    intro s a
    rw [get_balance_eq_sum, foldl_addDelta]
    simp [List.map_flatten, List.sum_flatten, List.map_map, Function.comp_def]
  refine ⟨hflat, ?_, by decide, by decide, ?_⟩
  · intro blocks ts a
    unfold get_balance_pending
    have hfold : ∀ (init : Int),
        (ts.map Option.some).foldl
          (fun acc e =>
            match acc, e with
            | none, _ => none
            | some _, none => none
            | some bal, some t => some (txApply a bal t)) (some init)
          = some (ts.foldl (txApply a) init) := by
      intro init
      induction ts generalizing init with
      | nil => simp
      | cons t rest ih => simp [List.foldl_cons, ih]
    rw [hfold, foldl_txApply_eq_addDelta]
  · intro a h0 h1 h2
    rw [get_balance_eq_sum]
    simp [freshState, get_genesis_block, genesisTransactionOne, genesisTransactionTwo,
      txDelta, Ne.symm h0, Ne.symm h1, Ne.symm h2]

/-- Witness for C6_balance_replay: an address never mentioned by the
genesis block has balance 0 on a fresh chain. -/
theorem C6_balance_replay_witness :
    get_balance freshState "x" = 0 :=
  C6_balance_replay.2.2.2.2 "x" (by decide) (by decide) (by decide)

/-- C7 (amended): the transactions selected by get_minable_block are
exactly the result of the specification-side scan that stops at the
first hole in the pool, skips identity hashes already selected in the
pass, skips entries whose identity hash is confirmed in a block whose
recorded first-occurrence index is nonzero, skips entries failing
signature verification, and stops at the acceptance cap or at pool
exhaustion. -/
theorem C7_candidate_scan (vf : Transaction → Bool) (s : State) (addr : String)
    (ts : Nat) (blk : Block) (s2 : State)
    (h : get_minable_block vf s addr ts = some (blk, s2)) :
    blk.transactions.dropLast
      = specScan vf s.blocks s.pending [] MAX_TRANSACTIONS_PER_BLOCK := by
  unfold get_minable_block at h
  cases hl : s.blocks.getLast? with
  | none =>
    rw [hl] at h
    exact Option.noConfusion h
  | some latest =>
    rw [hl] at h
    simp only [Option.some.injEq, Prod.mk.injEq] at h
    obtain ⟨hb, -⟩ := h
    rw [← hb]
    simp only [List.dropLast_concat]
    exact selectLoop_eq_specScan vf s.blocks s.pending [] 0 MAX_TRANSACTIONS_PER_BLOCK
      (by simp) (by decide)

/-- Candidate block produced by get_minable_block for reward address m
at timestamp 7 when the selection pass chooses no transaction. -/
def minedCandidateBlock : Block :=
  { index := 1,
    transactions := [{ source := "0", destination := "m", amount := 10, fee := 0,
                       timestamp := 7, txHash := minedRewardTxHash, signature := "0" }],
    previousHash := genesisCurrentHash, timestamp := 7, nonce := 0,
    currentHash := candidateBlockHash }

/-- Witness for C7_candidate_scan at the concrete hole-containing pool. -/
theorem C7_candidate_scan_witness :
    minedCandidateBlock.transactions.dropLast
      = specScan vfAll holeState.blocks holeState.pending [] MAX_TRANSACTIONS_PER_BLOCK :=
  C7_candidate_scan vfAll holeState "m" 7 minedCandidateBlock holeState (by rfl)

/-- C7 counterexample: on a pool holding a hole followed by a perfectly
valid transaction, the implemented pass selects nothing, while the scan
the claim describes, which continues past holes and skips every entry
confirmed anywhere on chain, selects that transaction. -/
theorem C7_candidate_scan_counterexample :
    (get_minable_block vfAll holeState "m" 7).map (fun p => p.1.transactions.dropLast)
        = some [] ∧
    origScan vfAll holeState.blocks holeState.pending [] MAX_TRANSACTIONS_PER_BLOCK
        = [tGood] ∧
    vfAll tGood = true ∧
    find_duplicate_transactions holeState.blocks tGood.txHash = none := by
  exact ⟨by rfl, by rfl, rfl, by rfl⟩

/-- C8: the candidate block returned by get_minable_block carries at
most MAX_TRANSACTIONS_PER_BLOCK selected transactions followed by
exactly one synthesized reward transaction paying the base reward plus
the selected fees to the reward address, and the chain state is
returned unchanged. -/
theorem C8_candidate_shape (vf : Transaction → Bool) (s : State) (addr : String)
    (ts : Nat) (blk : Block) (s2 : State)
    (h : get_minable_block vf s addr ts = some (blk, s2)) :
    s2 = s ∧
    blk.transactions.dropLast.length ≤ MAX_TRANSACTIONS_PER_BLOCK ∧
    (∃ rt : Transaction,
      blk.transactions = blk.transactions.dropLast ++ [rt] ∧
      rt.source = "0" ∧ rt.destination = addr ∧ rt.fee = 0 ∧
      rt.amount = get_reward blk.index
          + ((blk.transactions.dropLast.map Transaction.fee).sum)) := by
  unfold get_minable_block at h
  cases hl : s.blocks.getLast? with
  | none =>
    rw [hl] at h
    exact Option.noConfusion h
  | some latest =>
    rw [hl] at h
    simp only [Option.some.injEq, Prod.mk.injEq] at h
    obtain ⟨hb, hs⟩ := h
    refine ⟨hs.symm, ?_, ?_⟩
    · rw [← hb]
      simp only [List.dropLast_concat]
      exact selectLoop_length vf s.blocks s.pending [] 0 (by decide)
    · refine ⟨Transaction.mk "0" addr
          (get_reward (latest.index + 1) + (selectLoop vf s.blocks s.pending [] 0).2)
          0 ts minedRewardTxHash "0", ?_, rfl, rfl, rfl, ?_⟩
      · rw [← hb]
        simp only [List.dropLast_concat]
      · rw [← hb]
        simp only [List.dropLast_concat]
        have hfees := selectLoop_fees vf s.blocks s.pending [] 0
        simp only [List.map_nil, List.sum_nil, add_zero, Nat.zero_add] at hfees
        simp only [get_reward]
        omega

/-- Witness for C8_candidate_shape at the fresh chain. -/
theorem C8_candidate_shape_witness :
    get_minable_block vfAll freshState "m" 7 = some (minedCandidateBlock, freshState) ∧
    minedCandidateBlock.transactions.dropLast.length ≤ MAX_TRANSACTIONS_PER_BLOCK :=
  ⟨rfl, (C8_candidate_shape vfAll freshState "m" 7 minedCandidateBlock freshState rfl).2.1⟩

theorem validate_block_true_iff (vf : Transaction → Bool) (s : State) (b : Block) :
    validate_block vf s b = some true ↔ validateBlockE vf s b = Except.ok () := by
  unfold validate_block
  split
  · rename_i u heq
    cases u
    simp [heq]
  · rename_i heq
    simp [heq]
  · rename_i e hcond hne
    simp [hne]

theorem check_txs_ok_parts (vf : Transaction → Bool) (s : State) (b : Block)
    (h : check_transactions_and_block_reward vf s b = Except.ok ()) :
    ∃ rt : Transaction, b.transactions.getLast? = some rt ∧ rt.source = "0" ∧
      ∀ t ∈ b.transactions.dropLast,
        (payersTotal b.transactions.dropLast t.source : Int) ≤ get_balance s t.source := by
  cases hlast : b.transactions.getLast? with
  | none =>
    exfalso
    simp only [check_transactions_and_block_reward, hlast] at h
    exact Except.noConfusion h
  | some rt =>
    simp only [check_transactions_and_block_reward, hlast] at h
    split_ifs at h with h1 h2 h3 h4
    · push_neg at h4
      refine ⟨rt, rfl, h4.2, ?_⟩
      intro t ht
      by_contra hlt
      apply h3
      rw [List.any_eq_true]
      exact ⟨t, ht, by simpa using not_le.mp hlt⟩

theorem balance_nonneg_step (vf : Transaction → Bool) (s : State) (b : Block) (a : String)
    (hok : validateBlockE vf s b = Except.ok ()) (ha : a ≠ "0")
    (hbal : 0 ≤ get_balance s a) :
    0 ≤ get_balance { blocks := s.blocks ++ [b], pending := s.pending } a := by
  rw [get_balance_append s.blocks s.pending s.pending b a]
  have hself : get_balance { blocks := s.blocks, pending := s.pending } a
      = get_balance s a := rfl
  rw [hself]
  by_cases hidx : b.index = 0
  · have hgen : b = get_genesis_block := by
      have hbr := validateBlockE_genesis_branch vf s b hidx
      rw [hbr] at hok
      exact (check_genesis_ok_iff b).mp hok
    subst hgen
    have h1 := txDelta_nonneg a genesisTransactionOne
      (by simpa [genesisTransactionOne] using Ne.symm ha)
    have h2 := txDelta_nonneg a genesisTransactionTwo
      (by simpa [genesisTransactionTwo] using Ne.symm ha)
    have hsum : (get_genesis_block.transactions.map (txDelta a)).sum
        = txDelta a genesisTransactionOne + txDelta a genesisTransactionTwo := by
      simp [get_genesis_block]
    rw [hsum]
    linarith
  · obtain ⟨-, -, htx⟩ := validateBlockE_ok_parts vf s b hok hidx
    obtain ⟨rt, hlast, hrts, hbound⟩ := check_txs_ok_parts vf s b htx
    have hdecomp : b.transactions.dropLast ++ [rt] = b.transactions :=
      List.dropLast_append_getLast? rt hlast
    have hsum : (b.transactions.map (txDelta a)).sum
        = ((b.transactions.dropLast.map (txDelta a)).sum) + txDelta a rt := by
      rw [← hdecomp]
      simp
    have hrt : 0 ≤ txDelta a rt := txDelta_nonneg a rt (by rw [hrts]; exact Ne.symm ha)
    have hpre_ge := sum_txDelta_ge a b.transactions.dropLast
    rw [hsum]
    by_cases hsrc : ∃ t ∈ b.transactions.dropLast, t.source = a
    · obtain ⟨t, ht, hts⟩ := hsrc
      have hb2 := hbound t ht
      rw [hts] at hb2
      linarith
    · push_neg at hsrc
      have hzero : payersTotal b.transactions.dropLast a = 0 :=
        payersTotal_eq_zero b.transactions.dropLast a hsrc
      rw [hzero] at hpre_ge
      simp only [Nat.cast_zero, neg_zero] at hpre_ge
      linarith

/-- C9 counterexample: the reward sentinel address "0" already has a
negative replayed balance on the fresh chain, which is reachable. -/
theorem C9_nonneg_counterexample :
    Reachable vfAll freshState ∧ get_balance freshState "0" < 0 :=
  ⟨Reachable.init, by decide⟩

/-- C9 (amended): in every chain state reachable by successful add_block
operations, every address other than the reward sentinel "0" has a
non-negative replayed balance, enforced by the per-source balance rule
of the transaction check. -/
theorem C9_balances_nonneg (vf : Transaction → Bool) (s : State) (a : String)
    (hr : Reachable vf s) (ha : a ≠ "0") : 0 ≤ get_balance s a := by
  induction hr with
  | init =>
    rw [get_balance_eq_sum]
    have h1 := txDelta_nonneg a genesisTransactionOne
      (by simpa [genesisTransactionOne] using Ne.symm ha)
    have h2 := txDelta_nonneg a genesisTransactionTwo
      (by simpa [genesisTransactionTwo] using Ne.symm ha)
    simp only [freshState, get_genesis_block, List.map_cons, List.map_nil, List.sum_cons,
      List.sum_nil, add_zero]
    linarith
  | step s b s2 hrs hadd ih =>
    unfold add_block at hadd
    cases hv : validate_block vf s b with
    | none =>
      rw [hv] at hadd
      exact Option.noConfusion hadd
    | some bv =>
      rw [hv] at hadd
      cases bv
      · simp at hadd
      · simp at hadd
        rw [← hadd]
        exact balance_nonneg_step vf s b a ((validate_block_true_iff vf s b).mp hv) ha ih

/-- Witness for C9_balances_nonneg on the fresh chain at an ordinary
address. -/
theorem C9_balances_nonneg_witness :
    0 ≤ get_balance freshState "x" :=
  C9_balances_nonneg vfAll freshState "x" Reachable.init (by decide)

/-- C1 (defect evaluation): on the fresh chain, the candidate block at
index 1 whose only non-reward transaction carries an identity hash
already confirmed inside the genesis block passes full validation: the
duplicate lookup returns the genesis index 0, which is falsy, so the
replay rule never fires. -/
theorem C1_genesis_replay_block_accepted :
    find_duplicate_transactions freshState.blocks replayBlockTx.txHash = some 0 ∧
    validate_block vfAll freshState replayBlock = some true := by
  exact ⟨by rfl, by rfl⟩

/-- C2 (defect evaluation): a pending submission whose identity hash is
already confirmed inside the genesis block is admitted to the pool: the
duplicate lookup returns the genesis index 0, which is falsy, so the
replay rejection never fires. -/
theorem C2_genesis_replay_admitted :
    find_duplicate_transactions freshState.blocks replayPendingTx.txHash = some 0 ∧
    push_pending_transaction vfAll freshState replayPendingTx
      = (true, { blocks := freshState.blocks, pending := [some replayPendingTx] }) := by
  exact ⟨by rfl, by rfl⟩
